import Mathlib

/-!
# Verification of the Granite_FDD enrichment workflow engine

Shallow embedding of the enrichment pipeline of this repository
(`src/agentic_enrichment_pipeline.py`, `src/enrichment_pipeline_production.py`,
`src/config.py`) together with theorems settling the spec claims.

Conventions of the embedding:
* Python `float` arithmetic on scores is modelled with exact rationals (`ℚ`);
  all score constants in the code are short decimal literals.
* Python strings are Lean `String`s; the string scanning the code performs
  (`in`, `.split()`, `.upper()`) is re-implemented over `List Char`
  so all predicates compute by kernel reduction.
* `list(set(xs))` (deduplication) is modelled by first-occurrence
  deduplication `firstDedup`; CPython's set iteration order is unspecified,
  and theorems that depend on it are stated for every ordering.
* Fallible code is modelled with `Option`/`Except` (`none` / `.error` for a
  raised exception), and injected collaborators (the concrete simulated data
  sources) are passed as function parameters, exactly as the engine receives
  them.
-/

namespace Granite

/-! ## String helpers (Python `in`, `.split()`, `.upper()`) -/

/-- `startsWithL needle hay`: `needle` is an initial segment of `hay`. -/
def startsWithL : List Char → List Char → Bool
  | [], _ => true
  | _ :: _, [] => false
  | a :: xs, b :: ys => a = b && startsWithL xs ys

/-- Python `needle in hay` on strings, over the character lists. -/
def containsSub (needle : List Char) : List Char → Bool
  | [] => needle.isEmpty
  | b :: t => startsWithL needle (b :: t) || containsSub needle t

/-- Python `needle in hay` on `String`s. -/
def strContains (hay needle : String) : Bool :=
  containsSub needle.data hay.data

/-- Python `str.upper()` (ASCII letters; sufficient for the vocabulary the
classifiers match against). -/
def upperStr (s : String) : String :=
  ⟨s.data.map Char.toUpper⟩

/-- Auxiliary for `pyWords`: split a character list at whitespace,
`cur` is the word being accumulated (in reverse). -/
def pyWordsAux : List Char → List Char → List (List Char)
  | cur, [] => if cur.isEmpty then [] else [cur.reverse]
  | cur, c :: rest =>
    if c.isWhitespace then
      if cur.isEmpty then pyWordsAux [] rest
      else cur.reverse :: pyWordsAux [] rest
    else pyWordsAux (c :: cur) rest

/-- Python `str.split()` with no argument: split on whitespace runs,
dropping empty pieces. -/
def pyWords (s : String) : List String :=
  (pyWordsAux [] s.data).map fun l => ⟨l⟩

/-- Number of whitespace-separated tokens of `s` (Python `len(s.split())`). -/
def wordCount (s : String) : Nat := (pyWords s).length

/-- First-occurrence deduplication; models Python `list(set(xs))` up to
the (unspecified) iteration order of the set. -/
def firstDedup {α : Type} [DecidableEq α] : List α → List α
  | [] => []
  | a :: t => a :: firstDedup (t.filter fun x => x ≠ a)
  termination_by l => l.length
  decreasing_by
    simp only [List.length_cons]
    exact Nat.lt_succ_of_le (t.length_filter_le _)

/-- Mean of a list of rationals, `0` for the empty list (the code guards
every division `sum(l)/len(l)` with a nonemptiness test that yields `0`). -/
def meanQ (l : List ℚ) : ℚ :=
  if l.isEmpty then 0 else l.sum / l.length

/-! ## Entity classification

`EnrichmentAgent._classify_entity_node` (agentic pipeline) and
`EnhancedEntityClassifier.classify_entity` (production pipeline). -/

inductive EntityType : Type
  | business
  | individual
  deriving DecidableEq, Repr

structure Classification where
  type : EntityType
  confidence : ℚ
  businessIndicators : Nat
  individualIndicators : Nat
  deriving DecidableEq, Repr

/-- Business-indicator vocabulary of `_classify_entity_node`. -/
def businessIndicatorsAgentic : List String :=
  ["LLC", "INC", "CORP", "LTD", "LP", "COMPANY", "ENTERPRISES"]

/-- Individual-pattern vocabulary of `_classify_entity_node`
(matched against the raw, not uppercased, name). -/
def individualPatternsAgentic : List String :=
  [",", "JR", "SR", "III"]

/-- `business_score` of `_classify_entity_node`: number of indicators that
occur in the uppercased name. -/
def businessScoreAgentic (name : String) : Nat :=
  (businessIndicatorsAgentic.filter fun i => strContains (upperStr name) i).length

/-- `individual_score` of `_classify_entity_node`. -/
def individualScoreAgentic (name : String) : Nat :=
  (individualPatternsAgentic.filter fun p => strContains name p).length

/-- `EnrichmentAgent._classify_entity_node`, the classification it stores in
the workflow state (the reasoning string is omitted; it carries no data the
claims mention). -/
def classifyAgentic (name : String) : Classification :=
  let businessScore := businessScoreAgentic name
  let hasComma := strContains name ","
  let wc := wordCount name
  if businessScore > 0 then
    { type := .business, confidence := min (95/100) (7/10 + businessScore * (1/10)),
      businessIndicators := businessScore,
      individualIndicators := individualScoreAgentic name }
  else if hasComma ∧ wc = 2 then
    { type := .individual, confidence := 9/10,
      businessIndicators := businessScore,
      individualIndicators := individualScoreAgentic name }
  else if wc = 2 ∧ businessScore = 0 then
    { type := .individual, confidence := 8/10,
      businessIndicators := businessScore,
      individualIndicators := individualScoreAgentic name }
  else
    { type := .business, confidence := 6/10,
      businessIndicators := businessScore,
      individualIndicators := individualScoreAgentic name }

/-- Business-indicator vocabulary of `EnhancedEntityClassifier`. -/
def businessIndicatorsProduction : List String :=
  ["LLC", "INC", "CORP", "CORPORATION", "LTD", "LIMITED",
   "LP", "LLP", "CO", "COMPANY", "ENTERPRISES", "GROUP",
   "VENTURES", "HOLDINGS", "MANAGEMENT", "INVESTMENTS",
   "RESTAURANT", "FOODS", "CHICKEN", "GRILL"]

/-- `business_score` of `classify_entity`. -/
def businessScoreProduction (name : String) : Nat :=
  (businessIndicatorsProduction.filter fun i => strContains (upperStr name) i).length

/-- `individual_score` of `classify_entity`: how many of the two individual
patterns (comma present; exactly two tokens with no business indicator)
hold. -/
def individualScoreProduction (name : String) : Nat :=
  (if strContains name "," then 1 else 0) +
    (if wordCount name = 2 ∧ businessScoreProduction name = 0 then 1 else 0)

/-- `EnhancedEntityClassifier.classify_entity`. -/
def classifyProduction (name : String) : Classification :=
  let businessScore := businessScoreProduction name
  if businessScore > 0 then
    { type := .business, confidence := min (95/100) (7/10 + businessScore * (1/10)),
      businessIndicators := businessScore,
      individualIndicators := individualScoreProduction name }
  else if individualScoreProduction name > 0 then
    { type := .individual, confidence := 85/100,
      businessIndicators := businessScore,
      individualIndicators := individualScoreProduction name }
  else
    { type := .business, confidence := 6/10,
      businessIndicators := businessScore,
      individualIndicators := individualScoreProduction name }

/-! ## Records, strategies and source results -/

/-- The ten original input fields (`FranchiseeRecord`, and the `record` dict
of the agentic pipeline). -/
structure Rec where
  fdd : String
  fddStoreNo : String
  fddLocationName : String
  franchisee : String
  fddContactName : String
  address : String
  city : String
  state : String
  zip : String
  phone : String
  deriving DecidableEq, Repr

/-- The six enrichment field keys the simulated sources can contribute
(the keys of a source-result dict other than `source`, `priority` and
`source_confidence`). -/
inductive EField : Type
  | franchiseeOwner
  | corporateName
  | corporateAddress
  | corporatePhone
  | corporateEmail
  | linkedin
  deriving DecidableEq, Repr

/-- All six enrichment field keys; `len(aggregated_data)/6` divides by the
size of this list. -/
def allFieldKeys : List EField :=
  [.franchiseeOwner, .corporateName, .corporateAddress,
   .corporatePhone, .corporateEmail, .linkedin]

/-- One successful source-result dict: the contributed fields (in dict
insertion order) and the optional `source_confidence` entry. -/
structure SourceResult where
  fields : List (EField × String)
  sourceConfidence : Option ℚ
  deriving DecidableEq, Repr

/-- A source result as stored in `state["enrichment_results"]`:
`{**result, "source": source, "priority": ...}`. -/
structure TaggedResult where
  result : SourceResult
  source : String
  priority : String
  deriving DecidableEq, Repr

/-- `state["enrichment_strategy"]` as produced by
`_plan_enrichment_strategy`. -/
structure Strategy where
  primarySources : List String
  fallbackSources : List String
  confidenceThreshold : ℚ
  reasoning : String
  deriving DecidableEq, Repr

/-- `EnrichmentAgent._plan_enrichment_strategy`. -/
def planStrategy (c : Classification) (r : Rec) : Strategy :=
  if c.type = .business then
    if upperStr r.state = "TX" then
      { primarySources := ["business_registry", "google_places"],
        fallbackSources := ["corporate_database", "linkedin_company"],
        confidenceThreshold := 8/10,
        reasoning := "Texas business registry provides high-quality data" }
    else
      { primarySources := ["business_registry", "google_places"],
        fallbackSources := ["corporate_database", "linkedin_company"],
        confidenceThreshold := 7/10,
        reasoning := "Standard business enrichment strategy" }
  else
    { primarySources := ["linkedin_individual", "google_search"],
      fallbackSources := ["people_search", "social_media"],
      confidenceThreshold := 7/10,
      reasoning := "Individual-focused enrichment strategy" }

/-! ## Fan-out execution

`_execute_business_enrichment` / `_execute_individual_enrichment`.  The
source invocation (`_call_enrichment_source` applied to the fixed record) is
an injected collaborator modelled as `call : String → Option SourceResult`;
`none` models the falsy empty dict `{}` returned for an unknown or
inapplicable source. -/

/-- The accumulating parts of the workflow state touched by the execution
nodes. -/
structure ExecState where
  results : List TaggedResult
  attempted : List String
  confidences : List ℚ
  deriving DecidableEq, Repr

def initExecState : ExecState := ⟨[], [], []⟩

/-- One `for source in ...` loop of the execution nodes: call each source in
order and record non-empty results, with `defaultConf` the
`result.get("source_confidence", default)` fallback. -/
def runPhase (call : String → Option SourceResult) (defaultConf : ℚ)
    (priority : String) (sources : List String) (st : ExecState) : ExecState :=
  sources.foldl
    (fun st s =>
      match call s with
      | none => st
      | some r =>
        { results := st.results ++ [⟨r, s, priority⟩],
          attempted := st.attempted ++ [s],
          confidences := st.confidences ++ [r.sourceConfidence.getD defaultConf] })
    st

/-- The mean source confidence after the primary phase
(`sum(...)/len(...) if ... else 0`). -/
def primaryMean (call : String → Option SourceResult) (strat : Strategy) : ℚ :=
  meanQ (runPhase call (7/10) "primary" strat.primarySources initExecState).confidences

/-- `EnrichmentAgent._execute_business_enrichment`: primaries, then
fallbacks exactly when the mean primary confidence is below the strategy
threshold. -/
def execBusinessEnrichment (call : String → Option SourceResult)
    (strat : Strategy) : ExecState :=
  let st1 := runPhase call (7/10) "primary" strat.primarySources initExecState
  if meanQ st1.confidences < strat.confidenceThreshold then
    runPhase call (6/10) "fallback" strat.fallbackSources st1
  else st1

/-- `EnrichmentAgent._execute_individual_enrichment`: only the primary
sources are ever invoked (the parsed first/last name only feeds the injected
call, it does not affect control flow). -/
def execIndividualEnrichment (call : String → Option SourceResult)
    (strat : Strategy) : ExecState :=
  runPhase call (8/10) "primary" strat.primarySources initExecState

/-! ## Validation, scoring and conflicts (`_validate_and_score_results`,
`_calculate_consistency_score`, `_finalize_enrichment_result`) -/

/-- `aggregated_data[field]`: the non-empty values contributed to `field`,
in result-arrival order. -/
def aggValues (results : List TaggedResult) (k : EField) : List String :=
  results.foldl
    (fun acc tr =>
      acc ++ ((tr.result.fields.filter fun p => p.1 = k ∧ p.2 ≠ "").map fun p => p.2))
    []

/-- `field_sources[field]`: the sources of those contributions, parallel to
`aggValues`. -/
def aggSources (results : List TaggedResult) (k : EField) : List String :=
  results.foldl
    (fun acc tr =>
      acc ++ ((tr.result.fields.filter fun p => p.1 = k ∧ p.2 ≠ "").map fun _ => tr.source))
    []

/-- Per-field consistency `1 - (unique_values - 1) / max(1, total_values - 1)`. -/
def fieldConsistency (vals : List String) : ℚ :=
  1 - (((firstDedup vals).length - 1 : ℕ) : ℚ) / ((max 1 (vals.length - 1) : ℕ) : ℚ)

/-- `_calculate_consistency_score`, over an arbitrary per-field contribution
map (the populated fields are exactly the keys of `aggregated_data`). -/
def consistencyScore (agg : EField → List String) : ℚ :=
  let populated := allFieldKeys.filter fun k => ¬ agg k = []
  if populated.isEmpty then 0
  else meanQ (populated.map fun k => fieldConsistency (agg k))

/-- `quality_metrics["source_diversity"] = len(set(data_sources_attempted))`. -/
def sourceDiversity (attempted : List String) : Nat :=
  (firstDedup attempted).length

/-- `quality_metrics["field_completeness"] = len(aggregated_data) / 6`. -/
def fieldCompleteness (results : List TaggedResult) : ℚ :=
  ((allFieldKeys.filter fun k => ¬ aggValues results k = []).length : ℚ) / 6

/-- The `agent_confidence` of `_finalize_enrichment_result` (before the
3-decimal rounding). -/
def agentConfidenceRaw (classConf : ℚ) (results : List TaggedResult)
    (attempted : List String) : ℚ :=
  classConf * (3/10)
    + consistencyScore (aggValues results) * (3/10)
    + fieldCompleteness results * (2/10)
    + min 1 ((sourceDiversity attempted : ℚ) / 3) * (2/10)

/-- The conflict entry `_validate_and_score_results` builds for field `k`:
the deduplicated value list (`list(set(values))`, here in first-occurrence
order) with the full, parallel-to-contributions source list — present iff
there are at least two distinct values. -/
def conflictFor (results : List TaggedResult) (k : EField) :
    Option (List String × List String) :=
  let u := firstDedup (aggValues results k)
  if u.length > 1 then some (u, aggSources results k) else none

/-- Python `max(values, key=len)`: first string of maximal length. -/
def maxByLen (l : List String) : Option String :=
  l.foldl
    (fun acc v =>
      match acc with
      | none => some v
      | some m => if m.length < v.length then some v else acc)
    none

/-- Per-field branch of `_resolve_data_conflicts`.  `values` is the
(deduplicated) candidate list of the conflict, `sources` the full source
list.  `none` models a raised `IndexError` (`values[idx]` out of range, or
`values[1]` on a singleton).  `"Verified:" in str(values)` holds exactly
when some candidate contains the marker. -/
def resolveField (values sources : List String) : Option String :=
  if sources.contains "business_registry" then
    values.get? (sources.indexOf "business_registry")
  else if values.any fun v => strContains v "Verified:" then
    (values.filter fun v => strContains v "Verified:").head?
  else
    match values with
    | v0 :: v1 :: _ => if v1.length < v0.length then maxByLen values else some v0
    | _ => none

/-! ## Rounding

Python `round(x, 3)` (banker's rounding, exact on our rational model). -/

/-- Round half to even, Python `round(q)`. -/
def roundHalfEven (q : ℚ) : ℤ :=
  let f := ⌊q⌋
  let r := q - (f : ℚ)
  if r < 1/2 then f
  else if 1/2 < r then f + 1
  else if 2 ∣ f then f else f + 1

/-- Python `round(q, 3)`. -/
def round3 (q : ℚ) : ℚ :=
  (roundHalfEven (q * 1000) : ℚ) / 1000

/-! ## Production enricher: merge and data quality
(`ProductionDataEnricher._merge_enrichment_data`,
`_calculate_data_quality_score`).  The enriched record's enrichment fields
are modelled as a map `EField → String` (all fields start as `""`). -/

/-- The per-(key, value) update of `_merge_enrichment_data` on the current
value of that key (only entered for truthy `value` and existing attribute). -/
def mergeOne (k : EField) (cur v : String) : String :=
  if v = "" then cur
  else if cur = "" then v
  else if k = .corporateAddress ∧ strContains v "Verified:" then v
  else if k = .corporatePhone ∧ cur.length < v.length then v
  else cur

/-- `_merge_enrichment_data`: fold one source's field dict (in insertion
order) into the enriched record. -/
def mergeEnrichmentData (e : EField → String) (data : List (EField × String)) :
    EField → String :=
  data.foldl
    (fun e kv => fun f => if f = kv.1 then mergeOne kv.1 (e kv.1) kv.2 else e f)
    e

/-- `len(''.join(c for c in s if c.isdigit()))`. -/
def digitCount (s : String) : Nat :=
  (s.data.filter Char.isDigit).length

/-- Python `s.startswith(p)`. -/
def strStartsWith (s p : String) : Bool :=
  startsWithL p.data s.data

/-- `_calculate_data_quality_score`: start at 1.0, subtract fixed penalties,
floor at 0, round to 3 decimals. -/
def dataQualityScore (e : EField → String) : ℚ :=
  let q1 : ℚ := 1
  let q2 := if e .corporatePhone ≠ "" ∧ digitCount (e .corporatePhone) < 10
            then q1 - 1/10 else q1
  let q3 := if e .corporateEmail ≠ "" ∧
               (¬ (e .corporateEmail).data.contains '@' ∨
                ¬ (e .corporateEmail).data.contains '.')
            then q2 - 1/10 else q2
  let q4 := if e .linkedin ≠ "" ∧
               ¬ (strStartsWith (e .linkedin) "https://linkedin.com" ∨
                  strStartsWith (e .linkedin) "https://www.linkedin.com")
            then q3 - 1/20 else q3
  let q5 := if e .franchiseeOwner = "" then q4 - 2/10 else q4
  let q6 := if e .corporateAddress = "" then q5 - 1/10 else q5
  round3 (max 0 q6)

/-! ## Batch orchestration

`ProductionFranchiseeEnrichmentPipeline.process_records` and
`AgenticEnrichmentPipeline.process_records_agentic`.  The per-record
enrichment (`enrich_record` / `workflow.ainvoke` plus result construction)
is the fallible operation `Rec → Except String α`; `.error` models a raised
exception. -/

/-- Split into consecutive batches of `batch_size` records
(`records[i:i + batch_size]`); a non-positive size, which `range` would
reject and config validation forbids, is treated as 1. -/
def toBatches {α : Type} (n : Nat) : List α → List (List α)
  | [] => []
  | a :: t => ((a :: t).take (max 1 n)) :: toBatches n ((a :: t).drop (max 1 n))
  termination_by l => l.length
  decreasing_by
    simp only [List.length_cons, List.length_drop]
    omega

/-- `process_records` (production pipeline): per batch, gather the results
with `return_exceptions=True` and keep only the non-exception ones
(`successful_results`); failed records are counted but not emitted. -/
def processRecordsProduction {α : Type} (enrich : Rec → Except String α)
    (batchSize : Nat) (records : List Rec) : List α :=
  (toBatches batchSize records).foldl
    (fun acc batch => acc ++ batch.filterMap fun r => (enrich r).toOption)
    []

/-- The enrichment fields and agent metrics of an
`AgenticEnrichmentResult` that the claims mention. -/
structure AgenticResult where
  record : Rec
  fields : EField → String
  agentConfidence : ℚ
  strategyUsed : String
  reasoning : String

/-- The degraded result built in the `except` branch of
`process_records_agentic`: original fields copied through, confidence `0`,
reasoning naming the error. -/
def degradedResult (r : Rec) (e : String) : AgenticResult :=
  { record := r, fields := fun _ => "", agentConfidence := 0,
    strategyUsed := "Failed", reasoning := "Error: " ++ e }

/-- `process_records_agentic`: one output per input, degraded on exception. -/
def processRecordsAgentic (run : Rec → Except String AgenticResult)
    (records : List Rec) : List AgenticResult :=
  records.map fun r =>
    match run r with
    | .ok res => res
    | .error e => degradedResult r e

/-! ## Source invocation with retries (`_execute_enrichment_tasks`)

Each entry of `tasks` is a coroutine object created once; `await task` runs
the underlying operation the first time and raises
`RuntimeError("cannot reuse already awaited coroutine")` on every later
attempt.  A task is modelled by what its single run would produce:
`.ok fields` (possibly the empty, falsy dict) or `.error cause`. -/

/-- The `for attempt in range(max_retries)` loop for one task.  The `Bool`
is whether the coroutine has already been awaited; the result is the
appended result (if any) together with the number of times the underlying
operation actually ran. -/
def retryLoop : Nat → Bool → Except String (List (EField × String)) →
    Option (List (EField × String)) × Nat
  | 0, _, _ => (none, 0)
  | _ + 1, false, .ok f => (some f, 1)
  | n + 1, false, .error e =>
    let p := retryLoop n true (.error e)
    (p.1, p.2 + 1)
  | n + 1, true, out => retryLoop n true out

/-- How many times the underlying source operation runs when the loop is
given `maxRetries` attempts. -/
def invocationCount (maxRetries : Nat)
    (task : Except String (List (EField × String))) : Nat :=
  (retryLoop maxRetries false task).2

/-- `_execute_enrichment_tasks`: run every task through the retry loop,
keeping the truthy results in order; an exhausted task is logged and
skipped, never propagated. -/
def executeEnrichmentTasks (maxRetries : Nat)
    (tasks : List (Except String (List (EField × String)))) :
    List (List (EField × String)) :=
  tasks.foldl
    (fun acc task =>
      match (retryLoop maxRetries false task).1 with
      | some f => if f.isEmpty then acc else acc ++ [f]
      | none => acc)
    []

/-! ## Configuration validation (`config.validate_config`,
`ProductionFranchiseeEnrichmentPipeline.__init__`) -/

structure ProcessingSettings where
  maxConcurrentRequests : Int
  batchSize : Int
  maxRetries : Int
  retryDelaySeconds : ℚ
  rateLimitDelaySeconds : ℚ
  timeoutSeconds : Int
  deriving DecidableEq, Repr

structure DataQualitySettings where
  minimumConfidenceThreshold : ℚ
  highConfidenceThreshold : ℚ
  deriving DecidableEq, Repr

/-- The settings `validate_config` inspects.  Whether the configured input
file exists is a fact about the file system, supplied as a boolean. -/
structure PipelineSettings where
  processing : ProcessingSettings
  dataQuality : DataQualitySettings
  inputFile : String
  inputFileExists : Bool
  deriving DecidableEq, Repr

/-- `config.validate_config`: the list of issues, in check order. -/
def validateConfig (c : PipelineSettings) : List String :=
  (if c.processing.maxConcurrentRequests ≤ 0
   then ["max_concurrent_requests must be positive"] else []) ++
  (if c.processing.batchSize ≤ 0
   then ["batch_size must be positive"] else []) ++
  (if ¬ (0 ≤ c.dataQuality.minimumConfidenceThreshold ∧
         c.dataQuality.minimumConfidenceThreshold ≤ 1)
   then ["minimum_confidence_threshold must be between 0 and 1"] else []) ++
  (if ¬ (0 ≤ c.dataQuality.highConfidenceThreshold ∧
         c.dataQuality.highConfidenceThreshold ≤ 1)
   then ["high_confidence_threshold must be between 0 and 1"] else []) ++
  (if c.dataQuality.highConfidenceThreshold < c.dataQuality.minimumConfidenceThreshold
   then ["minimum_confidence_threshold cannot be greater than high_confidence_threshold"]
   else []) ++
  (if ¬ c.inputFileExists
   then ["Input file does not exist: " ++ c.inputFile] else [])

/-- `ProductionFranchiseeEnrichmentPipeline.__init__`: raise `ValueError`
when the issue list is non-empty, otherwise construct the pipeline. -/
def pipelineInit (c : PipelineSettings) : Except String PipelineSettings :=
  match validateConfig c with
  | [] => .ok c
  | issues => .error ("Configuration validation failed: " ++ String.intercalate ", " issues)

/-- A whole run: construct the pipeline, then process the records.  Records
are only ever processed through a successfully constructed pipeline. -/
def runPipeline {α : Type} (c : PipelineSettings) (enrich : Rec → Except String α)
    (records : List Rec) : Except String (List α) :=
  (pipelineInit c).map fun cfg =>
    processRecordsProduction enrich cfg.processing.batchSize.toNat records

/-! ## Lemmas about `firstDedup` -/

theorem mem_firstDedup {α : Type} [DecidableEq α] (l : List α) (x : α) :
    x ∈ firstDedup l ↔ x ∈ l := by
  induction l using firstDedup.induct with
  | case1 => simp [firstDedup]
  | case2 a t ih =>
    rw [firstDedup]
    simp only [List.mem_cons, List.mem_filter, decide_eq_true_eq] at *
    constructor
    · rintro (rfl | h)
      · exact Or.inl rfl
      · exact Or.inr (ih.mp h).1
    · rintro (rfl | h)
      · exact Or.inl rfl
      · by_cases hx : x = a
        · exact Or.inl hx
        · exact Or.inr (ih.mpr ⟨h, hx⟩)

theorem nodup_firstDedup {α : Type} [DecidableEq α] (l : List α) :
    (firstDedup l).Nodup := by
  induction l using firstDedup.induct with
  | case1 => simp [firstDedup]
  | case2 a t ih =>
    rw [firstDedup]
    refine List.nodup_cons.mpr ⟨fun hmem => ?_, ih⟩
    have := (mem_firstDedup _ a).mp hmem
    simp at this

theorem firstDedup_length_le {α : Type} [DecidableEq α] (l : List α) :
    (firstDedup l).length ≤ l.length := by
  induction l using firstDedup.induct with
  | case1 => simp [firstDedup]
  | case2 a t ih =>
    rw [firstDedup]
    simp only [List.length_cons, Nat.add_le_add_iff_right]
    exact ih.trans (t.length_filter_le _)

theorem firstDedup_eq_nil_iff {α : Type} [DecidableEq α] (l : List α) :
    firstDedup l = [] ↔ l = [] := by
  cases l with
  | nil => simp [firstDedup]
  | cons a t => rw [firstDedup]; simp

theorem firstDedup_toFinset {α : Type} [DecidableEq α] (l : List α) :
    (firstDedup l).toFinset = l.toFinset := by
  ext x
  simp [List.mem_toFinset, mem_firstDedup]

/-- The first-occurrence deduplication counts exactly the distinct values. -/
theorem firstDedup_length_eq_card {α : Type} [DecidableEq α] (l : List α) :
    (firstDedup l).length = l.toFinset.card := by
  rw [← firstDedup_toFinset, List.toFinset_card_of_nodup (nodup_firstDedup l)]

theorem firstDedup_length_pos {α : Type} [DecidableEq α] {l : List α} (h : l ≠ []) :
    1 ≤ (firstDedup l).length := by
  rcases l with _ | ⟨a, t⟩
  · exact absurd rfl h
  · rw [firstDedup]; simp

/-- A nonempty list has exactly one distinct value iff all its members
agree. -/
theorem firstDedup_length_eq_one_iff {α : Type} [DecidableEq α] {l : List α}
    (h : l ≠ []) :
    (firstDedup l).length = 1 ↔ ∀ a ∈ l, ∀ b ∈ l, a = b := by
  rcases l with _ | ⟨a, t⟩
  · exact absurd rfl h
  · rw [firstDedup]
    simp only [List.length_cons, Nat.add_left_eq_self, List.length_eq_zero]
    rw [firstDedup_eq_nil_iff, List.filter_eq_nil_iff]
    constructor
    · intro hall x hx y hy
      simp only [decide_eq_true_eq, not_not] at hall
      have hx' : x = a := by
        rcases List.mem_cons.mp hx with rfl | hx'
        · rfl
        · exact (hall x hx').symm ▸ rfl
      have hy' : y = a := by
        rcases List.mem_cons.mp hy with rfl | hy'
        · rfl
        · exact (hall y hy').symm ▸ rfl
      rw [hx', hy']
    · intro hall x hx
      simp only [decide_eq_true_eq, not_not]
      exact hall x (List.mem_cons_of_mem a hx) a (List.mem_cons_self a t)

/-! ## Lemmas about `meanQ` -/

theorem meanQ_nonneg {l : List ℚ} (h : ∀ x ∈ l, 0 ≤ x) : 0 ≤ meanQ l := by
  unfold meanQ
  split
  · exact le_refl 0
  · apply div_nonneg
    · exact List.sum_nonneg h
    · exact_mod_cast Nat.zero_le _

theorem sum_le_length {l : List ℚ} (h : ∀ x ∈ l, x ≤ 1) :
    l.sum ≤ (l.length : ℚ) := by
  induction l with
  | nil => simp
  | cons a t ih =>
    simp only [List.sum_cons, List.length_cons]
    push_cast
    have ha := h a (List.mem_cons_self a t)
    have ht := ih fun x hx => h x (List.mem_cons_of_mem a hx)
    linarith

theorem meanQ_le_one {l : List ℚ} (h : ∀ x ∈ l, x ≤ 1) : meanQ l ≤ 1 := by
  unfold meanQ
  split
  · exact zero_le_one
  · rename_i hne
    have hlen : 0 < (l.length : ℚ) := by
      have : l ≠ [] := by simpa [List.isEmpty_iff] using hne
      have : 0 < l.length := List.length_pos.mpr this
      exact_mod_cast this
    rw [div_le_one hlen]
    exact sum_le_length h

theorem sum_eq_length_of_forall_eq_one {l : List ℚ} (h : ∀ x ∈ l, x = 1) :
    l.sum = (l.length : ℚ) := by
  induction l with
  | nil => simp
  | cons a t ih =>
    simp only [List.sum_cons, List.length_cons]
    rw [h a (List.mem_cons_self a t),
      ih fun x hx => h x (List.mem_cons_of_mem a hx)]
    push_cast
    ring

/-- The mean of a nonempty list of values `≤ 1` is `1` iff every value is
`1`. -/
theorem meanQ_eq_one_iff {l : List ℚ} (hne : l ≠ []) (h : ∀ x ∈ l, x ≤ 1) :
    meanQ l = 1 ↔ ∀ x ∈ l, x = 1 := by
  unfold meanQ
  have hlenpos : 0 < l.length := List.length_pos.mpr hne
  have hlen : 0 < (l.length : ℚ) := by exact_mod_cast hlenpos
  rw [if_neg (by simpa [List.isEmpty_iff] using hne)]
  rw [div_eq_one_iff_eq (ne_of_gt hlen)]
  constructor
  · intro hsum
    by_contra hnot
    push_neg at hnot
    obtain ⟨x, hx, hxne⟩ := hnot
    have hxlt : x < 1 := lt_of_le_of_ne (h x hx) hxne
    obtain ⟨l₁, l₂, rfl⟩ := List.append_of_mem hx
    have h1 : l₁.sum ≤ (l₁.length : ℚ) :=
      sum_le_length fun y hy => h y (by simp [hy])
    have h2 : l₂.sum ≤ (l₂.length : ℚ) :=
      sum_le_length fun y hy => h y (by simp [hy])
    have : (l₁ ++ x :: l₂).sum < ((l₁ ++ x :: l₂).length : ℚ) := by
      simp only [List.sum_append, List.sum_cons, List.length_append,
        List.length_cons]
      push_cast
      linarith
    rw [hsum] at this
    exact lt_irrefl _ this
  · intro hall
    exact sum_eq_length_of_forall_eq_one hall

/-! ## Lemmas about consistency scoring -/

theorem fieldConsistency_le_one (vals : List String) :
    fieldConsistency vals ≤ 1 := by
  unfold fieldConsistency
  have hnum : (0 : ℚ) ≤ (((firstDedup vals).length - 1 : ℕ) : ℚ) := by positivity
  have hden : (0 : ℚ) < ((max 1 (vals.length - 1) : ℕ) : ℚ) := by
    have : 1 ≤ max 1 (vals.length - 1) := le_max_left _ _
    exact_mod_cast lt_of_lt_of_le Nat.zero_lt_one this
  nlinarith [div_nonneg hnum (le_of_lt hden)]

theorem fieldConsistency_nonneg {vals : List String} (h : vals ≠ []) :
    0 ≤ fieldConsistency vals := by
  unfold fieldConsistency
  have hden : (0 : ℚ) < ((max 1 (vals.length - 1) : ℕ) : ℚ) := by
    have : 1 ≤ max 1 (vals.length - 1) := le_max_left _ _
    exact_mod_cast lt_of_lt_of_le Nat.zero_lt_one this
  have hle : (firstDedup vals).length - 1 ≤ max 1 (vals.length - 1) := by
    have h1 := firstDedup_length_le vals
    have h2 : 1 ≤ vals.length := List.length_pos.mpr h
    omega
  have : (((firstDedup vals).length - 1 : ℕ) : ℚ) / ((max 1 (vals.length - 1) : ℕ) : ℚ) ≤ 1 := by
    rw [div_le_one hden]
    exact_mod_cast hle
  linarith

theorem fieldConsistency_eq_one_iff {vals : List String} (h : vals ≠ []) :
    fieldConsistency vals = 1 ↔ ∀ a ∈ vals, ∀ b ∈ vals, a = b := by
  unfold fieldConsistency
  have hden : (0 : ℚ) < ((max 1 (vals.length - 1) : ℕ) : ℚ) := by
    have : 1 ≤ max 1 (vals.length - 1) := le_max_left _ _
    exact_mod_cast lt_of_lt_of_le Nat.zero_lt_one this
  rw [← firstDedup_length_eq_one_iff h]
  have h1 := firstDedup_length_pos h
  constructor
  · intro heq
    have : (((firstDedup vals).length - 1 : ℕ) : ℚ) / ((max 1 (vals.length - 1) : ℕ) : ℚ) = 0 := by
      linarith
    have hz : (((firstDedup vals).length - 1 : ℕ) : ℚ) = 0 := by
      field_simp at this
      exact_mod_cast this
    have : (firstDedup vals).length - 1 = 0 := by exact_mod_cast hz
    omega
  · intro heq
    have : (firstDedup vals).length - 1 = 0 := by omega
    rw [this]
    simp

/-- Every field key is in the fixed universe. -/
theorem mem_allFieldKeys (k : EField) : k ∈ allFieldKeys := by
  cases k <;> simp [allFieldKeys]

theorem consistencyScore_nonneg (agg : EField → List String) :
    0 ≤ consistencyScore agg := by
  unfold consistencyScore
  dsimp only
  split
  · exact le_refl 0
  · apply meanQ_nonneg
    intro x hx
    obtain ⟨k, hk, rfl⟩ := List.mem_map.mp hx
    have : ¬ agg k = [] := of_decide_eq_true (List.mem_filter.mp hk).2
    exact fieldConsistency_nonneg this

theorem consistencyScore_le_one (agg : EField → List String) :
    consistencyScore agg ≤ 1 := by
  unfold consistencyScore
  dsimp only
  split
  · exact zero_le_one
  · apply meanQ_le_one
    intro x hx
    obtain ⟨k, _, rfl⟩ := List.mem_map.mp hx
    exact fieldConsistency_le_one _

theorem consistencyScore_eq_one_iff {agg : EField → List String}
    (h : ∃ k, agg k ≠ []) :
    consistencyScore agg = 1 ↔ ∀ k, ∀ a ∈ agg k, ∀ b ∈ agg k, a = b := by
  unfold consistencyScore
  obtain ⟨k₀, hk₀⟩ := h
  have hpop : k₀ ∈ allFieldKeys.filter fun k => ¬ agg k = [] :=
    List.mem_filter.mpr ⟨mem_allFieldKeys k₀, by simpa using hk₀⟩
  have hne : (allFieldKeys.filter fun k => ¬ agg k = []) ≠ [] :=
    List.ne_nil_of_mem hpop
  rw [if_neg (by simpa [List.isEmpty_iff] using hne)]
  rw [meanQ_eq_one_iff (by simpa using hne)
    (fun x hx => by
      obtain ⟨k, _, rfl⟩ := List.mem_map.mp hx
      exact fieldConsistency_le_one _)]
  constructor
  · intro hall k a ha b hb
    have hke : agg k ≠ [] := List.ne_nil_of_mem ha
    have hkpop : k ∈ allFieldKeys.filter fun k => ¬ agg k = [] :=
      List.mem_filter.mpr ⟨mem_allFieldKeys k, by simpa using hke⟩
    have := hall (fieldConsistency (agg k)) (List.mem_map_of_mem _ hkpop)
    exact (fieldConsistency_eq_one_iff hke).mp this a ha b hb
  · intro hall x hx
    obtain ⟨k, hk, rfl⟩ := List.mem_map.mp hx
    have hke : ¬ agg k = [] := of_decide_eq_true (List.mem_filter.mp hk).2
    exact (fieldConsistency_eq_one_iff hke).mpr (hall k)

/-! ## Lemmas about rounding -/

theorem floor_le_roundHalfEven (q : ℚ) : ⌊q⌋ ≤ roundHalfEven q := by
  unfold roundHalfEven
  dsimp only
  split_ifs <;> omega

theorem roundHalfEven_le_of_le {q : ℚ} {n : ℤ} (h : q ≤ (n : ℚ)) :
    roundHalfEven q ≤ n := by
  unfold roundHalfEven
  dsimp only
  have hf : ⌊q⌋ ≤ n := by
    calc ⌊q⌋ ≤ ⌊(n : ℚ)⌋ := Int.floor_le_floor h
    _ = n := Int.floor_intCast n
  have hfq : (⌊q⌋ : ℚ) ≤ q := Int.floor_le q
  split_ifs with h1 h2 h3
  · exact hf
  all_goals
    have hr : (1 : ℚ)/2 ≤ q - (⌊q⌋ : ℚ) := le_of_not_lt h1
    have hlt : (⌊q⌋ : ℚ) < (n : ℚ) := by linarith
    have : ⌊q⌋ < n := by exact_mod_cast hlt
    omega

theorem round3_nonneg {q : ℚ} (h0 : 0 ≤ q) : 0 ≤ round3 q := by
  unfold round3
  have : (0 : ℤ) ≤ roundHalfEven (q * 1000) := by
    have h1 : (0 : ℤ) ≤ ⌊q * 1000⌋ := Int.floor_nonneg.mpr (by positivity)
    exact h1.trans (floor_le_roundHalfEven _)
  have : (0 : ℚ) ≤ (roundHalfEven (q * 1000) : ℚ) := by exact_mod_cast this
  positivity

theorem round3_le_one {q : ℚ} (h1 : q ≤ 1) : round3 q ≤ 1 := by
  unfold round3
  have hle : roundHalfEven (q * 1000) ≤ (1000 : ℤ) :=
    roundHalfEven_le_of_le (by push_cast; linarith)
  have : (roundHalfEven (q * 1000) : ℚ) ≤ 1000 := by exact_mod_cast hle
  linarith

/-! ## Lemmas about the fan-out phases -/

/-- A phase attempts exactly the listed sources whose call returned a
truthy result, in order. -/
theorem runPhase_attempted (call : String → Option SourceResult) (d : ℚ)
    (p : String) (sources : List String) (st : ExecState) :
    (runPhase call d p sources st).attempted
      = st.attempted ++ sources.filter fun s => (call s).isSome := by
  induction sources generalizing st with
  | nil => simp [runPhase]
  | cons s rest ih =>
    unfold runPhase at ih ⊢
    rw [List.foldl_cons, List.filter_cons]
    cases hc : call s with
    | none => simp only [hc, Option.isSome_none, Bool.false_eq_true, if_false, ih]
    | some r =>
      simp only [hc, Option.isSome_some, if_true, ih]
      simp

/-! ## Lemmas about the production field merge -/

/-- The values a source dict contributes to field `f`, in order. -/
def valuesFor (f : EField) (data : List (EField × String)) : List String :=
  (data.filter fun kv => kv.1 = f).map fun kv => kv.2

theorem mem_valuesFor {f : EField} {data : List (EField × String)} {v : String} :
    v ∈ valuesFor f data ↔ (f, v) ∈ data := by
  unfold valuesFor
  simp only [List.mem_map, List.mem_filter, decide_eq_true_eq]
  constructor
  · rintro ⟨⟨k, w⟩, ⟨hmem, hk⟩, hv⟩
    simp only at hk hv
    rw [← hk, ← hv]
    exact hmem
  · intro h
    exact ⟨(f, v), ⟨h, rfl⟩, rfl⟩

/-- The merge acts on each field independently: the final value of `f` is
the fold of the per-key update over the values contributed to `f`. -/
theorem mergeEnrichmentData_eq_foldl (e : EField → String)
    (data : List (EField × String)) (f : EField) :
    mergeEnrichmentData e data f = (valuesFor f data).foldl (mergeOne f) (e f) := by
  induction data generalizing e with
  | nil => rfl
  | cons kv rest ih =>
    unfold mergeEnrichmentData at ih ⊢
    rw [List.foldl_cons, ih]
    unfold valuesFor
    rw [List.filter_cons]
    by_cases hf : kv.1 = f
    · subst hf
      rw [decide_eq_true rfl]
      simp only [if_true, List.map_cons, List.foldl_cons, if_pos rfl]
    · rw [decide_eq_false hf]
      simp only [Bool.false_eq_true, if_false]
      rw [if_neg fun h => hf h.symm]

theorem mergeOne_keep_of_cur_ne_empty {k : EField} {cur v : String}
    (hcur : cur ≠ "") (hk1 : k ≠ .corporateAddress) (hk2 : k ≠ .corporatePhone) :
    mergeOne k cur v = cur := by
  unfold mergeOne
  by_cases hv : v = ""
  · rw [if_pos hv]
  · rw [if_neg hv, if_neg hcur, if_neg fun h => hk1 h.1, if_neg fun h => hk2 h.1]

theorem foldl_mergeOne_keep_other {k : EField} (hk1 : k ≠ .corporateAddress)
    (hk2 : k ≠ .corporatePhone) (vs : List String) (cur : String)
    (hcur : cur ≠ "") : vs.foldl (mergeOne k) cur = cur := by
  induction vs with
  | nil => rfl
  | cons v rest ih =>
    rw [List.foldl_cons, mergeOne_keep_of_cur_ne_empty hcur hk1 hk2]
    exact ih

theorem mergeOne_addr_keep {cur v : String} (hcur : cur ≠ "")
    (hv : ¬ strContains v "Verified:") :
    mergeOne .corporateAddress cur v = cur := by
  unfold mergeOne
  by_cases hvx : v = ""
  · rw [if_pos hvx]
  · rw [if_neg hvx, if_neg hcur, if_neg fun h => hv h.2,
      if_neg fun h => nomatch h.1]

theorem foldl_mergeOne_addr_keep (vs : List String) (cur : String)
    (hcur : cur ≠ "") (hvs : ∀ v ∈ vs, ¬ strContains v "Verified:") :
    vs.foldl (mergeOne .corporateAddress) cur = cur := by
  induction vs with
  | nil => rfl
  | cons v rest ih =>
    rw [List.foldl_cons,
      mergeOne_addr_keep hcur (hvs v (List.mem_cons_self v rest))]
    exact ih fun w hw => hvs w (List.mem_cons_of_mem v hw)

theorem mergeOne_phone_keep {cur v : String} (hcur : cur ≠ "")
    (hv : v.length ≤ cur.length) :
    mergeOne .corporatePhone cur v = cur := by
  unfold mergeOne
  by_cases hvx : v = ""
  · rw [if_pos hvx]
  · have hno : ¬ (EField.corporatePhone = EField.corporatePhone ∧
        cur.length < v.length) := by
      intro h
      have := h.2
      omega
    rw [if_neg hvx, if_neg hcur, if_neg fun h => nomatch h.1]
    exact if_neg hno

theorem foldl_mergeOne_phone_keep (vs : List String) (cur : String)
    (hcur : cur ≠ "") (hvs : ∀ v ∈ vs, v.length ≤ cur.length) :
    vs.foldl (mergeOne .corporatePhone) cur = cur := by
  induction vs with
  | nil => rfl
  | cons v rest ih =>
    rw [List.foldl_cons,
      mergeOne_phone_keep hcur (hvs v (List.mem_cons_self v rest))]
    exact ih fun w hw => hvs w (List.mem_cons_of_mem v hw)

theorem strContains_empty_verified : strContains "" "Verified:" = false := rfl

theorem mergeOne_addr_verified_step {cur v : String}
    (h : strContains cur "Verified:" ∨ strContains v "Verified:") :
    strContains (mergeOne .corporateAddress cur v) "Verified:" := by
  unfold mergeOne
  by_cases hv : strContains v "Verified:"
  · have hvne : v ≠ "" := by
      intro he
      rw [he, strContains_empty_verified] at hv
      exact Bool.noConfusion hv
    rw [if_neg hvne]
    by_cases hc : cur = ""
    · rw [if_pos hc]
      exact hv
    · rw [if_neg hc, if_pos ⟨rfl, hv⟩]
      exact hv
  · have hcv : strContains cur "Verified:" := h.resolve_right hv
    have hcne : cur ≠ "" := by
      intro he
      rw [he, strContains_empty_verified] at hcv
      exact Bool.noConfusion hcv
    by_cases hvx : v = ""
    · rw [if_pos hvx]
      exact hcv
    · rw [if_neg hvx, if_neg hcne, if_neg fun hh => hv hh.2,
        if_neg fun hh => nomatch hh.1]
      exact hcv

theorem foldl_mergeOne_addr_verified (vs : List String) : ∀ (cur : String),
    (strContains cur "Verified:" ∨ ∃ v ∈ vs, strContains v "Verified:") →
    strContains (vs.foldl (mergeOne .corporateAddress) cur) "Verified:" := by
  induction vs with
  | nil =>
    intro cur h
    rcases h with h | ⟨v, hv, _⟩
    · exact h
    · simp at hv
  | cons v rest ih =>
    intro cur h
    rw [List.foldl_cons]
    rcases h with h | ⟨w, hw, hwv⟩
    · exact ih _ (Or.inl (mergeOne_addr_verified_step (Or.inl h)))
    · rcases List.mem_cons.mp hw with rfl | hw'
      · exact ih _ (Or.inl (mergeOne_addr_verified_step (Or.inr hwv)))
      · exact ih _ (Or.inr ⟨w, hw', hwv⟩)

theorem mergeOne_phone_length_mono (cur v : String) :
    cur.length ≤ (mergeOne .corporatePhone cur v).length := by
  unfold mergeOne
  by_cases hvx : v = ""
  · rw [if_pos hvx]
  · rw [if_neg hvx]
    by_cases hc : cur = ""
    · rw [if_pos hc, hc]
      simp
    · rw [if_neg hc, if_neg fun h => nomatch h.1]
      by_cases hlen : cur.length < v.length
      · rw [if_pos ⟨rfl, hlen⟩]
        omega
      · rw [if_neg fun h => hlen h.2]

theorem mergeOne_phone_length_ge {cur v : String} (hv : v ≠ "") :
    v.length ≤ (mergeOne .corporatePhone cur v).length := by
  unfold mergeOne
  rw [if_neg hv]
  by_cases hc : cur = ""
  · rw [if_pos hc]
  · rw [if_neg hc, if_neg fun h => nomatch h.1]
    by_cases hlen : cur.length < v.length
    · rw [if_pos ⟨rfl, hlen⟩]
    · rw [if_neg fun h => hlen h.2]
      omega

theorem foldl_mergeOne_phone_length_mono (vs : List String) : ∀ (cur : String),
    cur.length ≤ (vs.foldl (mergeOne .corporatePhone) cur).length := by
  induction vs with
  | nil => intro cur; exact le_refl _
  | cons v rest ih =>
    intro cur
    rw [List.foldl_cons]
    exact (mergeOne_phone_length_mono cur v).trans (ih _)

theorem foldl_mergeOne_phone_length_ge (vs : List String) :
    ∀ (cur v : String), v ∈ vs →
    v.length ≤ (vs.foldl (mergeOne .corporatePhone) cur).length := by
  induction vs with
  | nil =>
    intro cur v hv
    simp at hv
  | cons w rest ih =>
    intro cur v hv
    rw [List.foldl_cons]
    rcases List.mem_cons.mp hv with rfl | hv'
    · by_cases hve : v = ""
      · rw [hve]
        simp
      · exact (mergeOne_phone_length_ge hve).trans
          (foldl_mergeOne_phone_length_mono rest _)
    · exact ih _ v hv'

/-! ## Lemmas about batch processing -/

theorem foldl_append_eq {α β : Type} (g : α → List β) :
    ∀ (xs : List α) (init : List β),
      xs.foldl (fun acc x => acc ++ g x) init = init ++ (xs.map g).flatten := by
  intro xs
  induction xs with
  | nil => intro init; simp
  | cons x rest ih =>
    intro init
    rw [List.foldl_cons, ih, List.map_cons, List.flatten_cons, List.append_assoc]

theorem toBatches_flatten {α : Type} (n : Nat) (l : List α) :
    (toBatches n l).flatten = l := by
  induction l using toBatches.induct n with
  | case1 => rw [toBatches]; rfl
  | case2 a t ih =>
    rw [toBatches, List.flatten_cons, ih, List.take_append_drop]

theorem filterMap_flatten {α β : Type} (f : α → Option β) :
    ∀ (L : List (List α)), L.flatten.filterMap f = (L.map (List.filterMap f)).flatten := by
  intro L
  induction L with
  | nil => rfl
  | cons b rest ih =>
    rw [List.flatten_cons, List.filterMap_append, ih, List.map_cons,
      List.flatten_cons]

/-- The production batching amounts to filtering out the records whose
enrichment raised. -/
theorem processRecordsProduction_eq_filterMap {α : Type}
    (enrich : Rec → Except String α) (batchSize : Nat) (records : List Rec) :
    processRecordsProduction enrich batchSize records
      = records.filterMap fun r => (enrich r).toOption := by
  unfold processRecordsProduction
  rw [foldl_append_eq, List.nil_append, ← filterMap_flatten, toBatches_flatten]

theorem length_filterMap_toOption {α : Type} (enrich : Rec → Except String α)
    (records : List Rec) :
    (records.filterMap fun r => (enrich r).toOption).length
      = (records.filter fun r => (enrich r).isOk).length := by
  induction records with
  | nil => rfl
  | cons r rest ih =>
    rw [List.filterMap_cons, List.filter_cons]
    cases h : enrich r with
    | ok a => simpa [Except.toOption, Except.isOk, Except.toBool, h] using ih
    | error e => simpa [Except.toOption, Except.isOk, Except.toBool, h] using ih

/-! ## Score bounds -/

theorem classifyAgentic_confidence_bounds (name : String) :
    0 ≤ (classifyAgentic name).confidence ∧ (classifyAgentic name).confidence ≤ 1 := by
  unfold classifyAgentic
  dsimp only
  split_ifs
  · constructor
    · apply le_min
      · norm_num
      · positivity
    · exact le_trans (min_le_left _ _) (by norm_num)
  all_goals constructor <;> norm_num

theorem fieldCompleteness_bounds (results : List TaggedResult) :
    0 ≤ fieldCompleteness results ∧ fieldCompleteness results ≤ 1 := by
  unfold fieldCompleteness
  constructor
  · positivity
  · rw [div_le_one (by norm_num)]
    have hlen : (allFieldKeys.filter fun k => ¬ aggValues results k = []).length
        ≤ allFieldKeys.length := List.length_filter_le _ _
    have h6 : allFieldKeys.length = 6 := rfl
    rw [h6] at hlen
    exact_mod_cast hlen

theorem agentConfidenceRaw_bounds {classConf : ℚ} (h0 : 0 ≤ classConf)
    (h1 : classConf ≤ 1) (results : List TaggedResult) (attempted : List String) :
    0 ≤ agentConfidenceRaw classConf results attempted
      ∧ agentConfidenceRaw classConf results attempted ≤ 1 := by
  unfold agentConfidenceRaw
  have hc0 := consistencyScore_nonneg (aggValues results)
  have hc1 := consistencyScore_le_one (aggValues results)
  have hf := fieldCompleteness_bounds results
  have hd0 : 0 ≤ min 1 ((sourceDiversity attempted : ℚ) / 3) :=
    le_min (by norm_num) (by positivity)
  have hd1 : min 1 ((sourceDiversity attempted : ℚ) / 3) ≤ 1 := min_le_left _ _
  constructor <;> linarith [hf.1, hf.2]

theorem dataQualityScore_bounds (e : EField → String) :
    0 ≤ dataQualityScore e ∧ dataQualityScore e ≤ 1 := by
  unfold dataQualityScore
  dsimp only
  constructor
  · exact round3_nonneg (le_max_left 0 _)
  · apply round3_le_one
    apply max_le (by norm_num)
    split_ifs <;> norm_num

/-- C3.  For every record (hence every classification the classifier can
emit) and every combination of source results and attempted sources —
including none at all — both the final `agent_confidence` of the agentic
pipeline and the production `data_quality_score` lie in `[0, 1]`. -/
theorem claim_C3_scores_clamped_to_unit_interval :
    ∀ (name : String) (results : List TaggedResult) (attempted : List String)
      (e : EField → String),
      (0 ≤ round3 (agentConfidenceRaw (classifyAgentic name).confidence results attempted)
        ∧ round3 (agentConfidenceRaw (classifyAgentic name).confidence results attempted) ≤ 1)
      ∧ (0 ≤ dataQualityScore e ∧ dataQualityScore e ≤ 1) := by
  intro name results attempted e
  have hcls := classifyAgentic_confidence_bounds name
  have hraw := agentConfidenceRaw_bounds hcls.1 hcls.2 results attempted
  exact ⟨⟨round3_nonneg hraw.1, round3_le_one hraw.2⟩, dataQualityScore_bounds e⟩

/-- C6.  The overall consistency score is `0.0` when no field received a
contribution; when some field did, it is `1.0` exactly when every field's
contributions agree; and the per-field score follows the
`1 − (distinct − 1)/max(1, total − 1)` formula with `distinct` the true
number of distinct values. -/
theorem claim_C6_consistency_formula :
    ∀ agg : EField → List String,
      ((∀ k, agg k = []) → consistencyScore agg = 0)
      ∧ ((∃ k, agg k ≠ []) →
          (consistencyScore agg = 1 ↔ ∀ k, ∀ a ∈ agg k, ∀ b ∈ agg k, a = b))
      ∧ (∀ k, fieldConsistency (agg k)
            = 1 - (((agg k).toFinset.card - 1 : ℕ) : ℚ)
                / ((max 1 ((agg k).length - 1) : ℕ) : ℚ)) := by
  intro agg
  refine ⟨?_, fun h => consistencyScore_eq_one_iff h, fun k => ?_⟩
  · intro h
    unfold consistencyScore
    dsimp only
    have hfil : (allFieldKeys.filter fun k => ¬ agg k = []) = [] :=
      List.filter_eq_nil_iff.mpr fun k _ => by simp [h k]
    rw [hfil]
    rfl
  · unfold fieldConsistency
    rw [firstDedup_length_eq_card]

/-- A concrete per-field contribution map: two agreeing contributions to
`corporate_address`, nothing elsewhere. -/
def aggEx : EField → List String :=
  fun k => if k = .corporateAddress then ["100 Main St", "100 Main St"] else []

theorem claim_C6_consistency_formula_witness :
    consistencyScore aggEx = 1 := by
  refine ((claim_C6_consistency_formula aggEx).2.1 ?_).mpr ?_
  · exact ⟨.corporateAddress, by simp [aggEx]⟩
  · intro k a ha b hb
    cases k <;> simp_all [aggEx]

/-- C9.  Any violation of the documented setting constraints (thresholds in
`[0,1]`, minimum at most high, positive concurrency and batch size) makes
pipeline construction fail, so no record can be processed through it. -/
theorem claim_C9_config_validated_at_construction :
    ∀ (c : PipelineSettings) (α : Type) (enrich : Rec → Except String α)
      (records : List Rec),
      (c.dataQuality.minimumConfidenceThreshold < 0
        ∨ 1 < c.dataQuality.minimumConfidenceThreshold
        ∨ c.dataQuality.highConfidenceThreshold < 0
        ∨ 1 < c.dataQuality.highConfidenceThreshold
        ∨ c.dataQuality.highConfidenceThreshold
            < c.dataQuality.minimumConfidenceThreshold
        ∨ c.processing.maxConcurrentRequests ≤ 0
        ∨ c.processing.batchSize ≤ 0) →
      (runPipeline c enrich records).isOk = false := by
  intro c α enrich records hviol
  have hne : validateConfig c ≠ [] := by
    intro heq
    have hlen := congrArg List.length heq
    simp only [validateConfig, List.length_append, List.length_nil] at hlen
    split_ifs at hlen with h1 h2 h3 h4 h5 h6 <;>
      simp only [List.length_cons, List.length_nil] at hlen <;> try omega
    rcases hviol with h | h | h | h | h | h | h <;> linarith [h]
  cases hv : validateConfig c with
  | nil => exact absurd hv hne
  | cons i rest =>
    simp [runPipeline, pipelineInit, hv, Except.map, Except.isOk, Except.toBool]

/-- A settings object whose minimum confidence threshold exceeds 1. -/
def settingsBad : PipelineSettings :=
  { processing :=
      { maxConcurrentRequests := 3, batchSize := 5, maxRetries := 3,
        retryDelaySeconds := 1, rateLimitDelaySeconds := 2, timeoutSeconds := 30 },
    dataQuality :=
      { minimumConfidenceThreshold := 2, highConfidenceThreshold := 8/10 },
    inputFile := "data/input.xlsx",
    inputFileExists := true }

theorem claim_C9_config_validated_at_construction_witness :
    (1 : ℚ) < settingsBad.dataQuality.minimumConfidenceThreshold
      ∧ (runPipeline settingsBad (fun _ => Except.ok ()) []).isOk = false :=
  ⟨by norm_num [settingsBad],
    claim_C9_config_validated_at_construction settingsBad Unit (fun _ => .ok ()) []
      (Or.inr (Or.inl (by norm_num [settingsBad])))⟩

/-! ## C1: output cardinality -/

/-- A record whose enrichment succeeds. -/
def recA : Rec :=
  ⟨"Golden Chick", "1", "Store 1", "Good LLC", "", "123 Main St", "Dallas",
   "TX", "75001", "214-555-0100"⟩

/-- A record whose enrichment raises. -/
def recB : Rec :=
  ⟨"Golden Chick", "2", "Store 2", "Bad LLC", "", "456 Oak Ave", "Austin",
   "TX", "73301", "512-555-0100"⟩

/-- An enricher that raises on `recB` and succeeds elsewhere. -/
def enrichEx : Rec → Except String Unit :=
  fun r => if r.franchisee = "Bad LLC" then .error "boom" else .ok ()

/-- C1 counterexample: in the production pipeline, a batch of two records
one of which raises yields only one output — the failing record is dropped,
so the output cardinality differs from the input cardinality. -/
theorem claim_C1_counterexample_production_drops_failures :
    (processRecordsProduction enrichEx 5 [recA, recB]).length = 1
      ∧ (processRecordsProduction enrichEx 5 [recA, recB]).length
          ≠ ([recA, recB] : List Rec).length := by
  have h : processRecordsProduction enrichEx 5 [recA, recB]
      = [recA, recB].filterMap fun r => (enrichEx r).toOption :=
    processRecordsProduction_eq_filterMap enrichEx 5 [recA, recB]
  rw [h]
  constructor
  · decide
  · decide

/-- C1 amended.  The agentic pipeline emits exactly one output per input
record, turning an exception into a degraded result that copies the
original fields, sets confidence `0` and states the cause; the production
pipeline instead drops records whose enrichment raised, emitting exactly
one output per successfully enriched record. -/
theorem claim_C1_amended_one_output_per_record :
    (∀ (run : Rec → Except String AgenticResult) (records : List Rec),
        (processRecordsAgentic run records).length = records.length)
    ∧ (∀ (run : Rec → Except String AgenticResult) (records : List Rec)
        (i : Nat) (r : Rec) (e : String),
        records.get? i = some r → run r = .error e →
        (processRecordsAgentic run records).get? i = some (degradedResult r e))
    ∧ (∀ (r : Rec) (e : String),
        (degradedResult r e).record = r
          ∧ (degradedResult r e).agentConfidence = 0
          ∧ (degradedResult r e).reasoning = "Error: " ++ e)
    ∧ (∀ (α : Type) (enrich : Rec → Except String α) (batchSize : Nat)
        (records : List Rec),
        (processRecordsProduction enrich batchSize records).length
          = (records.filter fun r => (enrich r).isOk).length) := by
  refine ⟨?_, ?_, ?_, ?_⟩
  · intro run records
    simp [processRecordsAgentic]
  · intro run records i r e hr hrun
    unfold processRecordsAgentic
    rw [List.get?_map, hr]
    simp [hrun]
  · intro r e
    exact ⟨rfl, rfl, rfl⟩
  · intro α enrich bs records
    rw [processRecordsProduction_eq_filterMap, length_filterMap_toOption]

/-- An agentic per-record workflow that raises on `recB`. -/
def runEx : Rec → Except String AgenticResult :=
  fun r => if r.franchisee = "Bad LLC" then .error "boom"
           else .ok (degradedResult r "")

theorem claim_C1_amended_one_output_per_record_witness :
    (processRecordsAgentic runEx [recA, recB]).get? 1
      = some (degradedResult recB "boom") :=
  claim_C1_amended_one_output_per_record.2.1 runEx [recA, recB] 1 recB "boom"
    rfl rfl

/-! ## C2: registry precedence in conflict resolution -/

/-- Four source results that all contribute `corporate_address`: three
non-registry sources agree on one value, the business registry contributes
a different one. -/
def resultsC2 : List TaggedResult :=
  [⟨⟨[(.corporateAddress, "123 Main St, Dallas, TX 75001")], some (8/10)⟩,
     "google_places", "primary"⟩,
   ⟨⟨[(.corporateAddress, "123 Main St, Dallas, TX 75001")], some (7/10)⟩,
     "linkedin_company", "fallback"⟩,
   ⟨⟨[(.corporateAddress, "123 Main St, Dallas, TX 75001")], some (7/10)⟩,
     "corporate_database", "fallback"⟩,
   ⟨⟨[(.corporateAddress, "456 Oak Ave, Dallas, TX 75001")], some (9/10)⟩,
     "business_registry", "primary"⟩]

/-- C2 failing input.  The conflict entry pairs the deduplicated candidate
list (two values, in any set order) with the full four-element source list;
`_resolve_data_conflicts` then indexes the two-element candidate list with
the registry's position (3) in the source list, which raises `IndexError`
(modelled as `none`) instead of returning the registry's value — under
every possible iteration order of the deduplicated set. -/
theorem claim_C2_registry_value_not_returned :
    ("business_registry" ∈ aggSources resultsC2 .corporateAddress)
    ∧ conflictFor resultsC2 .corporateAddress
        = some (["123 Main St, Dallas, TX 75001", "456 Oak Ave, Dallas, TX 75001"],
            ["google_places", "linkedin_company", "corporate_database",
             "business_registry"])
    ∧ resolveField
        ["123 Main St, Dallas, TX 75001", "456 Oak Ave, Dallas, TX 75001"]
        ["google_places", "linkedin_company", "corporate_database",
         "business_registry"] = none
    ∧ resolveField
        ["456 Oak Ave, Dallas, TX 75001", "123 Main St, Dallas, TX 75001"]
        ["google_places", "linkedin_company", "corporate_database",
         "business_registry"] = none := by
  refine ⟨by decide, ?_, by decide, by decide⟩
  unfold conflictFor
  have hagg : aggValues resultsC2 .corporateAddress
      = ["123 Main St, Dallas, TX 75001", "123 Main St, Dallas, TX 75001",
         "123 Main St, Dallas, TX 75001", "456 Oak Ave, Dallas, TX 75001"] := by
    decide
  rw [hagg]
  have hdedup : firstDedup
      ["123 Main St, Dallas, TX 75001", "123 Main St, Dallas, TX 75001",
       "123 Main St, Dallas, TX 75001", "456 Oak Ave, Dallas, TX 75001"]
      = ["123 Main St, Dallas, TX 75001", "456 Oak Ave, Dallas, TX 75001"] := by
    simp [firstDedup.eq_def]
  rw [hdedup]
  decide

/-! ## C4: fallback gating -/

/-- The strategy `_plan_enrichment_strategy` produces for individuals. -/
def stratIndividual : Strategy :=
  { primarySources := ["linkedin_individual", "google_search"],
    fallbackSources := ["people_search", "social_media"],
    confidenceThreshold := 7/10,
    reasoning := "Individual-focused enrichment strategy" }

/-- The strategy `_plan_enrichment_strategy` produces for Texas businesses. -/
def stratBusinessTX : Strategy :=
  { primarySources := ["business_registry", "google_places"],
    fallbackSources := ["corporate_database", "linkedin_company"],
    confidenceThreshold := 8/10,
    reasoning := "Texas business registry provides high-quality data" }

/-- An injected source call that answers every source with confidence `0.5`. -/
def callHalf : String → Option SourceResult :=
  fun _ => some ⟨[(.corporateName, "Acme Foods")], some (1/2)⟩

/-- An injected individual source call answering only the two individual
primary sources, with confidence `0.5`. -/
def icallLow : String → Option SourceResult :=
  fun s =>
    if s = "linkedin_individual" ∨ s = "google_search" then
      some ⟨[(.franchiseeOwner, "John Smith")], some (1/2)⟩
    else none

/-- A record classified as an individual. -/
def recJohn : Rec :=
  ⟨"Golden Chick", "3", "Store 3", "John Smith", "", "789 Elm St", "Plano",
   "TX", "75023", "972-555-0100"⟩

theorem classifyAgentic_john_smith_individual :
    (classifyAgentic "John Smith").type = .individual := by
  have h1 : businessScoreAgentic "John Smith" = 0 := by decide
  have h2 : wordCount "John Smith" = 2 := by decide
  have h3 : strContains "John Smith" "," = false := by decide
  simp [classifyAgentic, h1, h2, h3]

theorem planStrategy_john_smith :
    planStrategy (classifyAgentic "John Smith") recJohn = stratIndividual := by
  unfold planStrategy
  rw [classifyAgentic_john_smith_individual]
  simp [stratIndividual]

/-- C4 counterexample: a record classified as individual whose primary
results have mean confidence `0.5`, below the `0.7` threshold of its
strategy; the claim then demands the fallback sources be invoked, but the
individual execution node attempts only the primary sources. -/
theorem claim_C4_counterexample_individual_never_falls_back :
    meanQ (execIndividualEnrichment icallLow
        (planStrategy (classifyAgentic "John Smith") recJohn)).confidences
      < (planStrategy (classifyAgentic "John Smith") recJohn).confidenceThreshold
    ∧ (planStrategy (classifyAgentic "John Smith") recJohn).fallbackSources
        = ["people_search", "social_media"]
    ∧ (execIndividualEnrichment icallLow
        (planStrategy (classifyAgentic "John Smith") recJohn)).attempted
        = ["linkedin_individual", "google_search"]
    ∧ "people_search" ∉ (execIndividualEnrichment icallLow
        (planStrategy (classifyAgentic "John Smith") recJohn)).attempted
    ∧ "social_media" ∉ (execIndividualEnrichment icallLow
        (planStrategy (classifyAgentic "John Smith") recJohn)).attempted := by
  rw [planStrategy_john_smith]
  have hconf : (execIndividualEnrichment icallLow stratIndividual).confidences
      = [1/2, 1/2] := rfl
  have hatt : (execIndividualEnrichment icallLow stratIndividual).attempted
      = ["linkedin_individual", "google_search"] := rfl
  refine ⟨?_, rfl, hatt, ?_, ?_⟩
  · rw [hconf]
    show meanQ [1/2, 1/2] < (7/10 : ℚ)
    simp [meanQ]
    norm_num
  · rw [hatt]
    decide
  · rw [hatt]
    decide

/-- C4 amended.  For records routed to the business execution node, an
exclusive fallback source is attempted iff the mean primary confidence is
below the strategy threshold (and its call returns a truthy result); for
records routed to the individual execution node, no non-primary source is
ever attempted, whatever the confidences. -/
theorem claim_C4_amended_fallback_gating :
    ∀ (call : String → Option SourceResult) (strat : Strategy) (s : String),
      (s ∈ strat.fallbackSources → s ∉ strat.primarySources →
        (s ∈ (execBusinessEnrichment call strat).attempted
          ↔ (primaryMean call strat < strat.confidenceThreshold
              ∧ (call s).isSome)))
      ∧ (s ∉ strat.primarySources →
          s ∉ (execIndividualEnrichment call strat).attempted) := by
  intro call strat s
  constructor
  · intro hfb hnp
    unfold execBusinessEnrichment primaryMean
    dsimp only
    split_ifs with hlt
    · rw [runPhase_attempted, runPhase_attempted]
      show s ∈ (initExecState.attempted ++ _) ++ _ ↔ _
      simp only [initExecState, List.nil_append, List.mem_append]
      constructor
      · intro hmem
        rcases hmem with h | h
        · exact absurd (List.mem_filter.mp h).1 hnp
        · exact ⟨hlt, (List.mem_filter.mp h).2⟩
      · rintro ⟨_, hsome⟩
        exact Or.inr (List.mem_filter.mpr ⟨hfb, hsome⟩)
    · rw [runPhase_attempted]
      show s ∈ initExecState.attempted ++ _ ↔ _
      simp only [initExecState, List.nil_append]
      constructor
      · intro hmem
        exact absurd (List.mem_filter.mp hmem).1 hnp
      · rintro ⟨hlt', _⟩
        exact absurd hlt' hlt
  · intro hnp
    unfold execIndividualEnrichment
    rw [runPhase_attempted]
    show s ∉ initExecState.attempted ++ _
    simp only [initExecState, List.nil_append]
    intro hmem
    exact hnp (List.mem_filter.mp hmem).1

theorem claim_C4_amended_fallback_gating_witness :
    "corporate_database" ∈ (execBusinessEnrichment callHalf stratBusinessTX).attempted :=
  ((claim_C4_amended_fallback_gating callHalf stratBusinessTX "corporate_database").1
      (by decide) (by decide)).mpr
    ⟨by
      have h : (runPhase callHalf (7/10) "primary" stratBusinessTX.primarySources
          initExecState).confidences = [1/2, 1/2] := rfl
      unfold primaryMean
      rw [h]
      show meanQ [1/2, 1/2] < (8/10 : ℚ)
      simp [meanQ]
      norm_num,
     by decide⟩

/-! ## C5: classifier confidences -/

/-- C5 counterexample: for the two-token, indicator-free name
`"John Smith"` the production classifier returns confidence `0.85`, not the
claimed `0.8`. -/
theorem claim_C5_counterexample_production_confidence :
    wordCount "John Smith" = 2
    ∧ businessScoreProduction "John Smith" = 0
    ∧ (classifyProduction "John Smith").type = .individual
    ∧ (classifyProduction "John Smith").confidence = 85/100
    ∧ (85/100 : ℚ) ≠ 8/10 := by
  have h2 : businessScoreProduction "John Smith" = 0 := by decide
  have hpos : 0 < individualScoreProduction "John Smith" := by decide
  refine ⟨by decide, h2, ?_, ?_, by norm_num⟩
  · simp [classifyProduction, h2, hpos]
  · simp [classifyProduction, h2, hpos]

/-- C5 amended.  The agentic classifier returns `individual`/`0.8` for
two-token names with no business indicator and no comma, and
`individual`/`0.9` for two-token comma names with no business indicator;
the production classifier returns `individual` with confidence `0.85` in
both situations. -/
theorem claim_C5_amended_classifier_confidences :
    ∀ name : String,
      (wordCount name = 2 → businessScoreAgentic name = 0 →
        strContains name "," = false →
        (classifyAgentic name).type = .individual
          ∧ (classifyAgentic name).confidence = 8/10)
      ∧ (strContains name "," = true → wordCount name = 2 →
          businessScoreAgentic name = 0 →
          (classifyAgentic name).type = .individual
            ∧ (classifyAgentic name).confidence = 9/10)
      ∧ (wordCount name = 2 → businessScoreProduction name = 0 →
          (classifyProduction name).type = .individual
            ∧ (classifyProduction name).confidence = 85/100)
      ∧ (strContains name "," = true → businessScoreProduction name = 0 →
          (classifyProduction name).type = .individual
            ∧ (classifyProduction name).confidence = 85/100) := by
  intro name
  refine ⟨?_, ?_, ?_, ?_⟩
  · intro h1 h2 h3
    constructor <;> simp [classifyAgentic, h1, h2, h3]
  · intro hc h1 h2
    constructor <;> simp [classifyAgentic, hc, h1, h2]
  · intro h1 h2
    have hpos : 0 < individualScoreProduction name := by
      unfold individualScoreProduction
      have h : wordCount name = 2 ∧ businessScoreProduction name = 0 := ⟨h1, h2⟩
      rw [if_pos h]
      omega
    constructor <;> simp [classifyProduction, h2, hpos]
  · intro hc h2
    have hpos : 0 < individualScoreProduction name := by
      unfold individualScoreProduction
      rw [if_pos hc]
      omega
    constructor <;> simp [classifyProduction, h2, hpos]

theorem claim_C5_amended_classifier_confidences_witness :
    (classifyAgentic "John Smith").confidence = 8/10
    ∧ (classifyAgentic "Smith, John").confidence = 9/10
    ∧ (classifyProduction "Smith, John").confidence = 85/100 :=
  ⟨((claim_C5_amended_classifier_confidences "John Smith").1
      (by decide) (by decide) (by decide)).2,
   ((claim_C5_amended_classifier_confidences "Smith, John").2.1
      (by decide) (by decide) (by decide)).2,
   ((claim_C5_amended_classifier_confidences "Smith, John").2.2.2
      (by decide) (by decide)).2⟩

/-! ## C7: determinism and order dependence of conflict resolution -/

/-- C7 counterexample: permuting a conflict's candidate values together
with their parallel source labels (no registry source, no verified marker)
changes the resolved winner: the longest-wins rule only fires when the
first candidate is strictly longer than the second, else the first
candidate wins. -/
theorem claim_C7_counterexample_order_dependence :
    (["PO Box 7", "100 Main Street"] : List String).Perm
        ["100 Main Street", "PO Box 7"]
    ∧ (["linkedin_company", "google_places"] : List String).Perm
        ["google_places", "linkedin_company"]
    ∧ resolveField ["100 Main Street", "PO Box 7"]
        ["google_places", "linkedin_company"] = some "100 Main Street"
    ∧ resolveField ["PO Box 7", "100 Main Street"]
        ["linkedin_company", "google_places"] = some "PO Box 7"
    ∧ (some "100 Main Street" : Option String) ≠ some "PO Box 7" := by
  refine ⟨by decide, by decide, by decide, by decide, by decide⟩

/-- C7 amended.  Resolution is a pure, deterministic function of the
candidate list and source list presented to it — re-invocation on equal
inputs returns equal winners — but it is not order-independent: permuting
the candidates with their labels can change the winner. -/
theorem claim_C7_amended_deterministic_but_order_dependent :
    (∀ (v s v' s' : List String), v = v' → s = s' →
        resolveField v s = resolveField v' s')
    ∧ (["b", "aa"] : List String).Perm ["aa", "b"]
    ∧ resolveField ["aa", "b"] ["s1", "s2"]
        ≠ resolveField ["b", "aa"] ["s2", "s1"] := by
  refine ⟨?_, by decide, by decide⟩
  intro v s v' s' hv hs
  rw [hv, hs]

theorem claim_C7_amended_deterministic_but_order_dependent_witness :
    resolveField ["100 Main Street"] ["business_registry"]
      = resolveField ["100 Main Street"] ["business_registry"] :=
  claim_C7_amended_deterministic_but_order_dependent.1
    ["100 Main Street"] ["business_registry"]
    ["100 Main Street"] ["business_registry"] rfl rfl

/-! ## C8: retry loop on a failing source -/

/-- C8 failing behaviour.  With `max_retries = 3` and a task whose
underlying operation raises, the loop iterates three times but the
operation actually runs exactly once: the second and third `await` hit the
already-awaited coroutine and raise the reuse `RuntimeError`, which the
`except` swallows.  The exhausted task contributes no result and the
remaining tasks still do. -/
theorem claim_C8_underlying_operation_runs_once :
    invocationCount 3 (.error "timeout") = 1
    ∧ invocationCount 3 (.error "timeout") ≠ 3
    ∧ (retryLoop 3 false (.error "timeout")).1 = none
    ∧ executeEnrichmentTasks 3
        [.ok [(.corporateName, "Acme Foods")], .error "timeout",
         .ok [(.corporatePhone, "214-555-0100")]]
        = [[(.corporateName, "Acme Foods")], [(.corporatePhone, "214-555-0100")]] := by
  refine ⟨rfl, by decide, rfl, rfl⟩

/-! ## C10: production merge replacement policy -/

theorem foldl_mergeOne_empty_vals {k : EField} (vs : List String)
    (cur : String) (h : ∀ w ∈ vs, w = "") :
    vs.foldl (mergeOne k) cur = cur := by
  induction vs with
  | nil => rfl
  | cons w rest ih =>
    rw [List.foldl_cons, h w (List.mem_cons_self w rest)]
    rw [show mergeOne k cur "" = cur from if_pos rfl]
    exact ih fun x hx => h x (List.mem_cons_of_mem w hx)

/-- C10.  In `_merge_enrichment_data`: entries absent or empty leave a
field unchanged; an already-populated field other than `corporate_address`
and `corporate_phone` is never overwritten; a populated
`corporate_address` is overwritten only by a value carrying the
`Verified:` marker (and a contributed verified value does end up marked in
the result); a populated `corporate_phone` is overwritten only by a
strictly longer value (and the final phone is at least as long as every
contributed value). -/
theorem claim_C10_merge_replacement_policy :
    ∀ (e : EField → String) (data : List (EField × String)) (f : EField)
      (v : String),
      ((∀ w, (f, w) ∈ data → w = "") → mergeEnrichmentData e data f = e f)
      ∧ (e f ≠ "" → f ≠ .corporateAddress → f ≠ .corporatePhone →
          mergeEnrichmentData e data f = e f)
      ∧ (e .corporateAddress ≠ "" →
          (∀ w, (EField.corporateAddress, w) ∈ data →
            ¬ strContains w "Verified:") →
          mergeEnrichmentData e data .corporateAddress = e .corporateAddress)
      ∧ (e .corporatePhone ≠ "" →
          (∀ w, (EField.corporatePhone, w) ∈ data →
            w.length ≤ (e .corporatePhone).length) →
          mergeEnrichmentData e data .corporatePhone = e .corporatePhone)
      ∧ ((EField.corporateAddress, v) ∈ data → strContains v "Verified:" →
          strContains (mergeEnrichmentData e data .corporateAddress) "Verified:")
      ∧ ((EField.corporatePhone, v) ∈ data →
          v.length ≤ (mergeEnrichmentData e data .corporatePhone).length) := by
  intro e data f v
  refine ⟨?_, ?_, ?_, ?_, ?_, ?_⟩
  · intro hall
    rw [mergeEnrichmentData_eq_foldl]
    exact foldl_mergeOne_empty_vals _ _ fun w hw => hall w (mem_valuesFor.mp hw)
  · intro hne h1 h2
    rw [mergeEnrichmentData_eq_foldl]
    exact foldl_mergeOne_keep_other h1 h2 _ _ hne
  · intro hne hall
    rw [mergeEnrichmentData_eq_foldl]
    exact foldl_mergeOne_addr_keep _ _ hne
      fun w hw => hall w (mem_valuesFor.mp hw)
  · intro hne hall
    rw [mergeEnrichmentData_eq_foldl]
    exact foldl_mergeOne_phone_keep _ _ hne
      fun w hw => hall w (mem_valuesFor.mp hw)
  · intro hv hver
    rw [mergeEnrichmentData_eq_foldl]
    exact foldl_mergeOne_addr_verified _ _
      (Or.inr ⟨v, mem_valuesFor.mpr hv, hver⟩)
  · intro hv
    rw [mergeEnrichmentData_eq_foldl]
    exact foldl_mergeOne_phone_length_ge _ _ v (mem_valuesFor.mpr hv)

/-- A partially populated enriched record: phone already holds a short
value, everything else empty. -/
def mergeInit : EField → String :=
  fun f => if f = .corporatePhone then "214-555" else ""

/-- A later source's contribution: a longer phone and a name. -/
def mergeData : List (EField × String) :=
  [(.corporatePhone, "214-555-0100"), (.corporateName, "Acme Foods")]

theorem claim_C10_merge_replacement_policy_witness :
    ("214-555-0100" : String).length
      ≤ (mergeEnrichmentData mergeInit mergeData .corporatePhone).length :=
  (claim_C10_merge_replacement_policy mergeInit mergeData .corporatePhone
      "214-555-0100").2.2.2.2.2 (by decide)

end Granite
